import Mathlib

/-!
Verification development for the flight-map data-processing pipeline
(`data_process/h.py`).  The Python source is shallowly embedded: each
Python function below is translated into a Lean definition with the same
name, and the claims about the pipeline are settled as theorems about
those definitions.

Modelling conventions (documented once here):
* Spreadsheet cell values are `Option String`: `none` models a missing
  cell (a pandas `NaN`, for which `pd.isna` is true); `some s` models a
  cell whose `str(...)` rendering is `s`.  `str(nan)` is `"nan"`, which
  `pyStr` reproduces for the unconditional `str(row[...])` call sites.
* Python `int(...)` is modelled for ASCII decimal digits with an
  optional sign and surrounding whitespace.  (CPython additionally
  accepts Unicode decimal digits and underscore separators; no claim
  involves those inputs.)
* The normalisation `str(int(float(s)))` that `parse_time` applies to a
  colon-free digits-and-dots string is modelled exactly: it keeps the
  digits before the first dot and strips leading zeros.  This is what
  CPython computes whenever the value fits in 53 bits (float round-trip
  exact); theorems whose truth depends on the exact value therefore
  carry a length bound keeping them inside that range.
* Python `set` accumulators are modelled as insertion-ordered
  duplicate-free lists (`addElem` inserts only if absent).  CPython set
  iteration order is unspecified; every claim about these sets is a
  membership claim, which the modelling preserves.
* Latitude/longitude values are IEEE floats in the source; no claim
  depends on their numeric value, so coordinates are modelled as an
  uninterpreted pair of integers.
-/

/-! ## Character and string helpers (Python primitives) -/

/-- The whitespace characters removed by Python's `str.strip()`
(space, tab, newline, carriage return, vertical tab, form feed). -/
def isPySpace (c : Char) : Bool :=
  c = ' ' || c = '\t' || c = '\n' || c = '\r' || c = '\x0b' || c = '\x0c'

/-- ASCII decimal digit test: models Python's `str.isdigit` on the
ASCII range ('0' = 48 … '9' = 57). -/
def isDigitCh (c : Char) : Bool :=
  decide (48 ≤ c.toNat ∧ c.toNat ≤ 57)

/-- Python `str.strip()`: drop leading and trailing whitespace. -/
def pyStrip (l : List Char) : List Char :=
  ((l.dropWhile isPySpace).reverse.dropWhile isPySpace).reverse

/-- Value of an ASCII digit character ('0'.toNat = 48). -/
def digitVal (c : Char) : Nat := c.toNat - 48

/-- Numeric value of a list of ASCII digit characters, most significant
first. -/
def digitsVal (l : List Char) : Nat :=
  l.foldl (fun a c => a * 10 + digitVal c) 0

/-- The digit-string part of Python `int(...)`: succeeds on a nonempty
all-digit string. -/
def natOfDigits (l : List Char) : Option Nat :=
  if l ≠ [] ∧ l.all isDigitCh then some (digitsVal l) else none

/-- Python `int(s)` on a string: strip whitespace, allow one optional
sign, then a nonempty run of decimal digits; anything else raises
`ValueError` (modelled as `none`). -/
def pyInt (l : List Char) : Option Int :=
  match pyStrip l with
  | [] => none
  | c :: rest =>
    if c = '+' then (natOfDigits rest).map Int.ofNat
    else if c = '-' then (natOfDigits rest).map (fun n => -(n : Int))
    else (natOfDigits (c :: rest)).map Int.ofNat

/-- Split a character list at every separator satisfying `p`, keeping
(possibly empty) chunks, as Python `str.split(sep)` does. -/
def splitOnPred (p : Char → Bool) : List Char → List (List Char)
  | [] => [[]]
  | x :: t =>
    match splitOnPred p t with
    | [] => [[]]
    | h :: r => if p x then [] :: h :: r else (x :: h) :: r

/-- Python `str(cell)` for a cell that may be missing: `str(nan)` is
the string `"nan"`. -/
def pyStr (cell : Option String) : String :=
  match cell with
  | none => "nan"
  | some s => s

/-! ## Record Normalizer (`h.py` lines 31–85) -/

/-- The structured time dictionary built by `parse_time`.  `hour` and
`minute` are `Int` because the source performs no range validation and
Python `int(...)` accepts signed values. -/
structure TimeInfo where
  hour : Int
  minute : Int
  is_next_day : Bool
  display : String
  deriving Repr, DecidableEq

/-- Python 02d formatting of an int: decimal rendering left-padded
with the zero digit to width 2 (a sign counts toward the width). -/
def pad2 (n : Int) : String :=
  let s := toString n
  if s.length < 2 then "0" ++ s else s

/-- Build the result dictionary of `parse_time` (lines 54–62): a
departure before 06:00 is flagged as next-day and the display string is
zero-padded `HH:MM` with the `次日` suffix. -/
def mkTimeInfo (h m : Int) : TimeInfo :=
  let nd := decide (h < 6)
  { hour := h
    minute := m
    is_next_day := nd
    display := pad2 h ++ ":" ++ pad2 m ++ (if nd then "次日" else "") }

/-- Canonical decimal numeral for a digit string: strip the leading
zeros, keeping a single `'0'` when nothing remains.  This is
`str(int(...))` of the string's value. -/
def canonDigits (l : List Char) : List Char :=
  match l.dropWhile (fun c => c = '0') with
  | [] => ['0']
  | t => t

/-- Model of str(int(float(s))) for a colon-free string whose non-dot
characters are all digits: `float` raises on two or more dots;
otherwise truncation keeps the digits before the first dot, and the
decimal re-rendering strips leading zeros (exact whenever the value
fits in a 53-bit float mantissa; see the header note). -/
def pyNumCanon (l : List Char) : Option (List Char) :=
  if 2 ≤ l.count '.' then none
  else some (canonDigits (l.takeWhile (fun c => c ≠ '.')))

/-- Model of parse_time (lines 31–62).  Missing value → `None`; a colon splits
the string directly; otherwise a digits-and-dots string is normalised
through `str(int(float(...)))` and the result is decoded as
right-aligned minutes by length; any exception yields `None`. -/
def parse_time (raw : Option String) : Option TimeInfo :=
  match raw with
  | none => none
  | some str =>
    let s := pyStrip str.data
    if s.contains ':' then
      -- `hour, minute = map(int, time_str.split(':'))`: any part count
      -- other than two, or any non-integer part, raises.
      match splitOnPred (fun c => c = ':') s with
      | [a, b] =>
        match pyInt a, pyInt b with
        | some h, some m => some (mkTimeInfo h m)
        | _, _ => none
      | _ => none
    else
      let nodot := s.filter (fun c => c ≠ '.')
      match (if !nodot.isEmpty && nodot.all isDigitCh then pyNumCanon s else some s) with
      | none => none
      | some s1 =>
        if s1.length ≤ 2 then
          match pyInt s1 with
          | some m => some (mkTimeInfo 0 m)
          | none => none
        else if s1.length = 3 then
          match pyInt (s1.take 1), pyInt (s1.drop 1) with
          | some h, some m => some (mkTimeInfo h m)
          | _, _ => none
        else
          match pyInt (s1.take 2), pyInt (s1.drop 2) with
          | some h, some m => some (mkTimeInfo h m)
          | _, _ => none

/-- Model of parse_days (lines 74–79), the comprehension
`[int(d) for d in str(x).strip() if d.isdigit()]`.
Missing value → empty list; otherwise the list of digit values in
order of appearance, duplicates preserved. -/
def parse_days (raw : Option String) : List Nat :=
  match raw with
  | none => []
  | some s => ((pyStrip s.data).filter isDigitCh).map digitVal

/-- Model of is_morning_flight (lines 81–85): a parsed time dictionary is
always non-empty, so Python's `not time_info` is exactly the `None`
test; morning means hour in [6, 12). -/
def is_morning_flight (time_info : Option TimeInfo) : Bool :=
  match time_info with
  | none => false
  | some t => decide (6 ≤ t.hour ∧ t.hour < 12)

/-! ## Flight Classifier (`h.py` lines 87–119 and 253–256) -/

/-- Bool substring containment: Python `needle in hay` on strings. -/
def strContainsSub (needle : List Char) : List Char → Bool
  | [] => needle.isEmpty
  | c :: t => needle.isPrefixOf (c :: t) || strContainsSub needle t

def small_aircraft : List String := ["E190", "E195"]

def medium_aircraft : List String :=
  ["A319", "A19N", "A320", "A20N", "A21N", "A321", "B737", "B738", "B38M"]

def large_aircraft : List String := ["A332", "A333", "B788", "B789"]

/-- Model of classify_aircraft_size (lines 87–119): missing → `默认`
(default); otherwise upper-case the stripped string, test the three
fixed code lists by substring containment and decide by how many size
categories matched (0 or ≥2 → default). -/
def classify_aircraft_size (raw : Option String) : String :=
  match raw with
  | none => "默认"
  | some str =>
    let s := (pyStrip str.data).map Char.toUpper
    let has_small := small_aircraft.any (fun a => strContainsSub a.data s)
    let has_medium := medium_aircraft.any (fun a => strContainsSub a.data s)
    let has_large := large_aircraft.any (fun a => strContainsSub a.data s)
    let size_types_count :=
      (if has_small then 1 else 0) + (if has_medium then 1 else 0) +
        (if has_large then 1 else 0)
    if size_types_count = 0 then "默认"
    else if size_types_count = 1 then
      if has_small then "小型" else if has_medium then "中型" else "大型"
    else "默认"

/-- Token split used for `individual_aircraft` (lines 150 and 256):
`.replace('/', ' ').replace(',', ' ').split()` — Python's argumentless
`split` drops empty chunks. -/
def tokenizeAircraft (s : String) : List String :=
  ((splitOnPred isPySpace
      ((s.data.map (fun c => if c = '/' then ' ' else c)).map
        (fun c => if c = ',' then ' ' else c))).filter
    (fun w => w ≠ [])).map List.asString

/-! ## Data model (`h.py` lines 258–272) -/

/-- Latitude/longitude pair.  The source stores IEEE floats; no claim
depends on the numeric values, so they are modelled as an
uninterpreted pair of integers. -/
structure Coord where
  lat : Int
  lng : Int
  deriving Repr, DecidableEq

/-- One flight dictionary as built by `create_flight_visualization`
(lines 258–272). -/
structure Flight where
  airline : String
  flight_number : String
  days : List Nat
  departure : String
  arrival : String
  departure_time : Option TimeInfo
  arrival_time : Option TimeInfo
  departure_coord : Coord
  arrival_coord : Coord
  aircraft_type : String
  aircraft_size : String
  is_morning : Bool
  individual_aircraft : List String
  deriving Repr, DecidableEq

/-! ## Route Aggregator (`h.py` lines 121–193) -/

/-- Insert a string into a Python-set accumulator (modelled as an
insertion-ordered duplicate-free list): `set.add`. -/
def addElem (l : List String) (x : String) : List String :=
  if x ∈ l then l else l ++ [x]

/-- Model of set.update(xs): insert each element in turn. -/
def addAll (l : List String) (xs : List String) : List String :=
  xs.foldl addElem l

/-- The mutable per-key accumulator created by the `defaultdict`
(lines 123–135). -/
structure RouteAcc where
  flights : List Flight
  has_morning : Bool
  has_evening : Bool
  airlines : List String
  aircraft_types : List String
  aircraft_sizes : List String
  individual_aircraft : List String
  departure : String
  arrival : String
  departure_coord : Option Coord
  arrival_coord : Option Coord
  deriving Repr, DecidableEq

/-- The `defaultdict` default value (lines 123–135). -/
def emptyAcc : RouteAcc :=
  { flights := []
    has_morning := false
    has_evening := false
    airlines := []
    aircraft_types := []
    aircraft_sizes := []
    individual_aircraft := []
    departure := ""
    arrival := ""
    departure_coord := none
    arrival_coord := none }

/-- The route key: departure, a hyphen, then arrival (line 139). -/
def routeKey (f : Flight) : String :=
  f.departure ++ "-" ++ f.arrival

/-- The loop body of `merge_flights_to_routes` (lines 141–159): append
the flight, overwrite the endpoint fields, union the set-valued
aggregates (the individual-aircraft set is fed both from re-tokenising
`aircraft_type` under the sentinel guard, line 149, and from the
flight's own `individual_aircraft` list, line 153), and OR the
morning/evening flags. -/
def updAcc (acc : RouteAcc) (f : Flight) : RouteAcc :=
  { flights := acc.flights ++ [f]
    departure := f.departure
    arrival := f.arrival
    departure_coord := some f.departure_coord
    arrival_coord := some f.arrival_coord
    airlines := addElem acc.airlines f.airline
    aircraft_types := addElem acc.aircraft_types f.aircraft_type
    individual_aircraft :=
      addAll
        (if f.aircraft_type ≠ "" ∧ f.aircraft_type ≠ "未知机型" then
          addAll acc.individual_aircraft (tokenizeAircraft f.aircraft_type)
        else acc.individual_aircraft)
        f.individual_aircraft
    aircraft_sizes := addElem acc.aircraft_sizes f.aircraft_size
    has_morning := acc.has_morning || f.is_morning
    has_evening := acc.has_evening || !f.is_morning }

/-- One iteration of the grouping loop.  A CPython 3.7+ `defaultdict`
is insertion-ordered: a fresh key is appended at the end, an existing
key is updated in place. -/
def mergeStep (m : List (String × RouteAcc)) (f : Flight) :
    List (String × RouteAcc) :=
  if routeKey f ∈ m.map Prod.fst then
    m.map (fun p => if p.1 = routeKey f then (p.1, updAcc p.2 f) else p)
  else
    m ++ [(routeKey f, updAcc emptyAcc f)]

/-- The finalised route record (lines 162–191). -/
structure Route where
  route_key : String
  departure : String
  arrival : String
  departure_coord : Option Coord
  arrival_coord : Option Coord
  flights : List Flight
  airlines : List String
  aircraft_types : List String
  aircraft_sizes : List String
  individual_aircraft : List String
  color : String
  route_type : String
  flight_count : Nat
  has_morning : Bool
  has_evening : Bool
  deriving Repr, DecidableEq

/-- Colour/label choice from the two flags (lines 164–173). -/
def routeColorType (hm he : Bool) : String × String :=
  if hm && he then ("#CE6A85", "早晚班")
  else if hm then ("#FF8C61", "早班")
  else ("#4E598C", "晚班")

/-- Turn one accumulator into the emitted route record (lines 175–191). -/
def finalizeRoute (k : String) (acc : RouteAcc) : Route :=
  { route_key := k
    departure := acc.departure
    arrival := acc.arrival
    departure_coord := acc.departure_coord
    arrival_coord := acc.arrival_coord
    flights := acc.flights
    airlines := acc.airlines
    aircraft_types := acc.aircraft_types
    aircraft_sizes := acc.aircraft_sizes
    individual_aircraft := acc.individual_aircraft
    color := (routeColorType acc.has_morning acc.has_evening).1
    route_type := (routeColorType acc.has_morning acc.has_evening).2
    flight_count := acc.flights.length
    has_morning := acc.has_morning
    has_evening := acc.has_evening }

/-- Model of merge_flights_to_routes (lines 121–193). -/
def merge_flights_to_routes (flights : List Flight) : List Route :=
  (flights.foldl mergeStep []).map (fun p => finalizeRoute p.1 p.2)

/-! ## Row processing in `create_flight_visualization` (lines 224–276) -/

/-- One already-column-mapped spreadsheet row (line 216); `none` fields
are `NaN` cells. -/
structure Row where
  airline : Option String
  flight_number : Option String
  departure : Option String
  arrival : Option String
  departure_time : Option String
  arrival_time : Option String
  days : Option String
  aircraft_type : Option String
  deriving Repr, DecidableEq

/-- The body of the per-row loop (lines 224–274): resolve both
endpoint coordinates (a miss drops the row with a warning), parse the
times and days, substitute the `未知机型` sentinel for a missing
aircraft cell, classify the size, tokenise the aircraft string under
the sentinel guard, and assemble the flight dictionary. -/
def processRow (coord_dict : String → Option Coord) (row : Row) :
    Option Flight :=
  let departure_city := (pyStrip (pyStr row.departure).data).asString
  let arrival_city := (pyStrip (pyStr row.arrival).data).asString
  match coord_dict departure_city, coord_dict arrival_city with
  | some dep_coord, some arr_coord =>
    let dep_time := parse_time row.departure_time
    let arr_time := parse_time row.arrival_time
    let aircraft_type :=
      match row.aircraft_type with
      | none => "未知机型"
      | some s => s
    let aircraft_size := classify_aircraft_size (some aircraft_type)
    let individual_aircraft :=
      if aircraft_type ≠ "" ∧ aircraft_type ≠ "未知机型" then
        tokenizeAircraft aircraft_type
      else []
    some
      { airline := pyStr row.airline
        flight_number := pyStr row.flight_number
        days := parse_days row.days
        departure := departure_city
        arrival := arrival_city
        departure_time := dep_time
        arrival_time := arr_time
        departure_coord := dep_coord
        arrival_coord := arr_coord
        aircraft_type := aircraft_type
        aircraft_size := aircraft_size
        is_morning := is_morning_flight dep_time
        individual_aircraft := individual_aircraft }
  | _, _ => none

/-- The flight list assembled by the loop: rows whose coordinates do
not both resolve are skipped, everything else is kept in order. -/
def pipelineFlights (coord_dict : String → Option Coord)
    (rows : List Row) : List Flight :=
  rows.filterMap (processRow coord_dict)

/-! ## Spec-side definitions (written from the specification's words,
for comparison with the source embedding) -/

/-- First-occurrence deduplication, the spec's description of the
route output order: one entry per distinct key, in first-seen order. -/
def firstSeenDedup (l : List String) : List String :=
  l.foldl addElem []

/-- The specification's fixed-width right-aligned decoding rule for a
colon-free numeric string, applied verbatim to the given characters:
length ≤ 2 → hour 0; length 3 → 1-digit hour; otherwise 2-digit hour. -/
def specFixedWidth (l : List Char) : Int × Int :=
  if l.length ≤ 2 then (0, (digitsVal l : Int))
  else if l.length = 3 then
    ((digitsVal (l.take 1) : Int), (digitsVal (l.drop 1) : Int))
  else ((digitsVal (l.take 2) : Int), (digitsVal (l.drop 2) : Int))

/-- The specification's description of `classifyAircraftSize`: count
the size categories with a code contained in the upper-cased trimmed
string; zero or more than one matching category gives the default
bucket, exactly one gives that category. -/
def spec_classifyAircraftSize (raw : Option String) : String :=
  match raw with
  | none => "默认"
  | some str =>
    let s := (pyStrip str.data).map Char.toUpper
    let matched :=
      [("小型", small_aircraft), ("中型", medium_aircraft),
        ("大型", large_aircraft)].filter
        (fun p => p.2.any (fun a => strContainsSub a.data s))
    match matched with
    | [p] => p.1
    | _ => "默认"

/-- The accumulator a key ends up with: fold the loop body over the
flights carrying that key. -/
def buildAcc (l : List Flight) : RouteAcc :=
  l.foldl updAcc emptyAcc

/-! ## Concrete inputs used by witnesses and counterexamples -/

/-- A two-airport coordinate table. -/
def exDict : String → Option Coord := fun s =>
  if s = "甲" then some ⟨39, 116⟩
  else if s = "乙" then some ⟨31, 121⟩
  else none

/-- A resolvable row departing 08:00 (a morning flight). -/
def exRowMorning : Row :=
  { airline := some "海南航空", flight_number := some "HU1001",
    departure := some "甲", arrival := some "乙",
    departure_time := some "08:00", arrival_time := some "23:59",
    days := some "1357", aircraft_type := some "B738" }

/-- The same route departing 05:00: before noon, but not a morning
flight for the [6,12) test. -/
def exRowEarly : Row :=
  { exRowMorning with
    flight_number := some "HU1002"
    departure_time := some "05:00" }

/-- The same route with an aircraft cell that contains the unknown
sentinel as one token among several. -/
def exRowSentinel : Row :=
  { exRowMorning with
    flight_number := some "HU1003"
    aircraft_type := some "未知机型/A320" }

/-- The same route with an unparseable departure time. -/
def exRowBadTime : Row :=
  { exRowMorning with
    flight_number := some "HU1004"
    departure_time := some "abc" }

/-- The flights the pipeline derives from the 08:00 and 05:00 rows. -/
def exFlights : List Flight :=
  pipelineFlights exDict [exRowMorning, exRowEarly]

/-- The single route those two flights merge into. -/
def exRoute : Route :=
  finalizeRoute "甲-乙"
    (buildAcc (exFlights.filter (fun f => routeKey f == "甲-乙")))

set_option maxRecDepth 10000

/-! ## Lemmas about the set accumulators -/

theorem mem_addElem {l : List String} {y x : String} :
    x ∈ addElem l y ↔ x ∈ l ∨ x = y := by
  unfold addElem
  split <;> rename_i h
  · constructor
    · exact Or.inl
    · rintro (hx | rfl) <;> [exact hx; exact h]
  · simp [List.mem_append]

theorem nodup_addElem {l : List String} {y : String} (h : l.Nodup) :
    (addElem l y).Nodup := by
  unfold addElem
  split <;> rename_i hm
  · exact h
  · simpa [List.nodup_append] using ⟨h, hm⟩

theorem mem_addAll {ys l : List String} {x : String} :
    x ∈ addAll l ys ↔ x ∈ l ∨ x ∈ ys := by
  induction ys generalizing l with
  | nil => simp [addAll]
  | cons y t ih =>
    show x ∈ addAll (addElem l y) t ↔ _
    rw [ih, mem_addElem]
    simp only [List.mem_cons]
    tauto

theorem nodup_addAll {ys l : List String} (h : l.Nodup) :
    (addAll l ys).Nodup := by
  induction ys generalizing l with
  | nil => exact h
  | cons y t ih => exact ih (nodup_addElem h)

theorem mem_firstSeenDedup {l : List String} {x : String} :
    x ∈ firstSeenDedup l ↔ x ∈ l := by
  show x ∈ addAll [] l ↔ _
  rw [mem_addAll]
  simp

theorem nodup_firstSeenDedup {l : List String} :
    (firstSeenDedup l).Nodup :=
  nodup_addAll List.nodup_nil

theorem firstSeenDedup_append (l l' : List String) :
    firstSeenDedup (l ++ l') = addAll (firstSeenDedup l) l' :=
  List.foldl_append ..

/-! ## Lemmas about the per-key accumulator -/

theorem foldl_updAcc_flights (l : List Flight) (a : RouteAcc) :
    (l.foldl updAcc a).flights = a.flights ++ l := by
  induction l generalizing a with
  | nil => simp
  | cons f t ih => simp [ih, updAcc]

theorem foldl_updAcc_has_morning (l : List Flight) (a : RouteAcc) :
    (l.foldl updAcc a).has_morning
      = (a.has_morning || l.any (fun f => f.is_morning)) := by
  induction l generalizing a with
  | nil => simp
  | cons f t ih => simp [ih, updAcc, Bool.or_assoc]

theorem foldl_updAcc_has_evening (l : List Flight) (a : RouteAcc) :
    (l.foldl updAcc a).has_evening
      = (a.has_evening || l.any (fun f => !f.is_morning)) := by
  induction l generalizing a with
  | nil => simp
  | cons f t ih => simp [ih, updAcc, Bool.or_assoc]

/-- Membership in the individual-aircraft set after one loop
iteration: the flight contributes its re-tokenised `aircraft_type`
(when the sentinel guard passes) and its own token list. -/
theorem mem_updAcc_individual {a : RouteAcc} {f : Flight} {x : String} :
    x ∈ (updAcc a f).individual_aircraft
      ↔ x ∈ a.individual_aircraft
        ∨ (((f.aircraft_type ≠ "" ∧ f.aircraft_type ≠ "未知机型")
              ∧ x ∈ tokenizeAircraft f.aircraft_type)
            ∨ x ∈ f.individual_aircraft) := by
  show x ∈ addAll _ _ ↔ _
  rw [mem_addAll]
  by_cases hg : f.aircraft_type ≠ "" ∧ f.aircraft_type ≠ "未知机型"
  · rw [if_pos hg, mem_addAll]
    tauto
  · rw [if_neg hg]
    tauto

theorem foldl_updAcc_mem_individual (l : List Flight) (a : RouteAcc)
    (x : String) :
    x ∈ (l.foldl updAcc a).individual_aircraft
      ↔ x ∈ a.individual_aircraft
        ∨ ∃ f ∈ l,
            ((f.aircraft_type ≠ "" ∧ f.aircraft_type ≠ "未知机型")
                ∧ x ∈ tokenizeAircraft f.aircraft_type)
              ∨ x ∈ f.individual_aircraft := by
  induction l generalizing a with
  | nil => simp
  | cons f t ih =>
    rw [List.foldl_cons, ih, mem_updAcc_individual]
    constructor
    · rintro ((h | h) | ⟨g, hg, hx⟩)
      · exact Or.inl h
      · exact Or.inr ⟨f, List.mem_cons_self .., h⟩
      · exact Or.inr ⟨g, List.mem_cons_of_mem _ hg, hx⟩
    · rintro (h | ⟨g, hg, hx⟩)
      · exact Or.inl (Or.inl h)
      · rcases List.mem_cons.mp hg with rfl | hg'
        · exact Or.inl (Or.inr hx)
        · exact Or.inr ⟨g, hg', hx⟩

/-- Membership in the aircraft-type set after one loop iteration:
`route['aircraft_types'].add(...)` is unconditional. -/
theorem mem_updAcc_types {a : RouteAcc} {f : Flight} {x : String} :
    x ∈ (updAcc a f).aircraft_types
      ↔ x ∈ a.aircraft_types ∨ x = f.aircraft_type := by
  show x ∈ addElem _ _ ↔ _
  exact mem_addElem

theorem foldl_updAcc_mem_types (l : List Flight) (a : RouteAcc)
    (x : String) :
    x ∈ (l.foldl updAcc a).aircraft_types
      ↔ x ∈ a.aircraft_types ∨ ∃ f ∈ l, f.aircraft_type = x := by
  induction l generalizing a with
  | nil => simp
  | cons f t ih =>
    rw [List.foldl_cons, ih, mem_updAcc_types]
    constructor
    · rintro ((h | rfl) | ⟨g, hg, hx⟩)
      · exact Or.inl h
      · exact Or.inr ⟨f, List.mem_cons_self .., rfl⟩
      · exact Or.inr ⟨g, List.mem_cons_of_mem _ hg, hx⟩
    · rintro (h | ⟨g, hg, hx⟩)
      · exact Or.inl (Or.inl h)
      · rcases List.mem_cons.mp hg with rfl | hg'
        · exact Or.inl (Or.inr hx.symm)
        · exact Or.inr ⟨g, hg', hx⟩

/-! ## The grouping-loop invariant -/

theorem mergeStep_pos {m : List (String × RouteAcc)} {f : Flight}
    (h : routeKey f ∈ m.map Prod.fst) :
    mergeStep m f
      = m.map (fun p => if p.1 = routeKey f then (p.1, updAcc p.2 f) else p) := by
  unfold mergeStep
  rw [if_pos h]

theorem mergeStep_neg {m : List (String × RouteAcc)} {f : Flight}
    (h : routeKey f ∉ m.map Prod.fst) :
    mergeStep m f = m ++ [(routeKey f, updAcc emptyAcc f)] := by
  unfold mergeStep
  rw [if_neg h]

/-- State of the route dictionary after the grouping loop (lines
137–159): the keys are the distinct route keys in first-seen order,
and each key's accumulator is the loop body folded over exactly the
flights carrying that key, in input order. -/
theorem mergeState_spec (fl : List Flight) :
    (fl.foldl mergeStep []).map Prod.fst = firstSeenDedup (fl.map routeKey)
      ∧ ∀ p ∈ fl.foldl mergeStep [],
          p.2 = buildAcc (fl.filter (fun f => routeKey f == p.1)) := by
  induction fl using List.reverseRecOn with
  | nil => simp [firstSeenDedup]
  | append_singleton l f ih =>
    obtain ⟨ihk, ihe⟩ := ih
    rw [List.foldl_append]
    have hdedup : firstSeenDedup ((l ++ [f]).map routeKey)
        = addElem (firstSeenDedup (l.map routeKey)) (routeKey f) := by
      rw [List.map_append, firstSeenDedup_append]
      rfl
    simp only [List.foldl_cons, List.foldl_nil]
    by_cases hmem : routeKey f ∈ (l.foldl mergeStep []).map Prod.fst
    · rw [mergeStep_pos hmem]
      constructor
      · have hkeys :
            ((l.foldl mergeStep []).map
                (fun p => if p.1 = routeKey f then (p.1, updAcc p.2 f) else p)).map
              Prod.fst
              = (l.foldl mergeStep []).map Prod.fst := by
          rw [List.map_map]
          apply List.map_congr_left
          intro p _
          by_cases h : p.1 = routeKey f <;> simp [h]
        rw [hkeys, ihk, hdedup, addElem, if_pos (ihk ▸ hmem)]
      · intro p hp
        rcases List.mem_map.mp hp with ⟨q, hq, hpq⟩
        rw [List.filter_append]
        by_cases hq1 : q.1 = routeKey f
        · rw [if_pos hq1] at hpq
          have hp1 : p.1 = q.1 := by rw [← hpq]
          have hp2 : p.2 = updAcc q.2 f := by rw [← hpq]
          have hf1 : List.filter (fun g => routeKey g == p.1) [f] = [f] := by
            simp [hp1, hq1]
          rw [hp2, hf1, ihe q hq, hp1]
          simp only [buildAcc]
          rw [List.foldl_append]
          rfl
        · rw [if_neg hq1] at hpq
          subst hpq
          have hf0 : List.filter (fun g => routeKey g == q.1) [f] = [] := by
            simp only [List.filter]
            rw [beq_eq_false_iff_ne.mpr (fun h => hq1 h.symm)]
          rw [hf0, List.append_nil]
          exact ihe q hq
    · rw [mergeStep_neg hmem]
      have hknotin : routeKey f ∉ l.map routeKey := by
        rw [ihk] at hmem
        exact fun h => hmem (mem_firstSeenDedup.mpr h)
      constructor
      · rw [List.map_append, ihk, hdedup]
        show _ = addElem _ _
        rw [addElem, if_neg (fun h => hmem (ihk ▸ h))]
        rfl
      · intro p hp
        rw [List.filter_append]
        rcases List.mem_append.mp hp with hpM | hpNew
        · have hp1 : routeKey f ≠ p.1 := by
            intro h
            exact hmem (h ▸ List.mem_map_of_mem Prod.fst hpM)
          have hf0 : List.filter (fun g => routeKey g == p.1) [f] = [] := by
            simp only [List.filter]
            rw [beq_eq_false_iff_ne.mpr hp1]
          rw [hf0, List.append_nil]
          exact ihe p hpM
        · have hpeq : p = (routeKey f, updAcc emptyAcc f) := by
            simpa using hpNew
          subst hpeq
          have hfl : List.filter (fun g => routeKey g == routeKey f) l = [] := by
            rw [List.filter_eq_nil_iff]
            intro g hg
            simp only [beq_iff_eq]
            exact fun h => hknotin (h ▸ List.mem_map_of_mem routeKey hg)
          have hf1 :
              List.filter (fun g => routeKey g == routeKey f) [f] = [f] := by
            simp
          rw [hfl, hf1]
          rfl

/-- Membership characterisation of the aggregator output: the routes
are exactly the finalised per-key accumulators, one per first-seen
key. -/
theorem mem_merge_iff {fl : List Flight} {r : Route} :
    r ∈ merge_flights_to_routes fl
      ↔ ∃ k ∈ firstSeenDedup (fl.map routeKey),
          r = finalizeRoute k
                (buildAcc (fl.filter (fun f => routeKey f == k))) := by
  obtain ⟨hk, he⟩ := mergeState_spec fl
  unfold merge_flights_to_routes
  rw [List.mem_map]
  constructor
  · rintro ⟨p, hp, rfl⟩
    refine ⟨p.1, hk ▸ List.mem_map_of_mem Prod.fst hp, ?_⟩
    rw [he p hp]
  · rintro ⟨k, hkmem, rfl⟩
    rw [← hk] at hkmem
    rcases List.mem_map.mp hkmem with ⟨p, hp, rfl⟩
    exact ⟨p, hp, by rw [he p hp]⟩

/-- The emitted key list is the first-seen deduplication of the input
keys. -/
theorem merge_keys (fl : List Flight) :
    (merge_flights_to_routes fl).map Route.route_key
      = firstSeenDedup (fl.map routeKey) := by
  unfold merge_flights_to_routes
  rw [List.map_map]
  have : (Route.route_key ∘ fun p : String × RouteAcc => finalizeRoute p.1 p.2)
      = Prod.fst := by
    funext p
    rfl
  rw [this]
  exact (mergeState_spec fl).1

/-- Field content of an emitted route: flights are the key's
subsequence of the input, the flags are OR-reductions over them, and
colour/label/count come from `routeColorType` and the flight list. -/
theorem merge_route_fields {fl : List Flight} {r : Route}
    (hr : r ∈ merge_flights_to_routes fl) :
    r.flights = fl.filter (fun f => routeKey f == r.route_key)
      ∧ r.has_morning = r.flights.any (fun f => f.is_morning)
      ∧ r.has_evening = r.flights.any (fun f => !f.is_morning)
      ∧ r.color = (routeColorType r.has_morning r.has_evening).1
      ∧ r.route_type = (routeColorType r.has_morning r.has_evening).2
      ∧ r.flight_count = r.flights.length := by
  rcases mem_merge_iff.mp hr with ⟨k, hk, rfl⟩
  have hfl : (buildAcc (fl.filter (fun f => routeKey f == k))).flights
      = fl.filter (fun f => routeKey f == k) := by
    rw [buildAcc, foldl_updAcc_flights]
    rfl
  refine ⟨hfl, ?_, ?_, rfl, rfl, rfl⟩
  · show (buildAcc _).has_morning = ((buildAcc _).flights).any _
    rw [hfl, buildAcc, foldl_updAcc_has_morning]
    rfl
  · show (buildAcc _).has_evening = ((buildAcc _).flights).any _
    rw [hfl, buildAcc, foldl_updAcc_has_evening]
    rfl

/-- Claim C1.  For every list of flights and every route produced by
`merge_flights_to_routes`, `has_morning` equals the disjunction of the
member flights' `is_morning` values and `has_evening` the disjunction
of their negations; `route_type` is `早晚班` ("both") exactly when both
flags hold, `早班` ("morning-only") when only `has_morning` holds, and
`晚班` ("evening-only") otherwise; and `color` is the fixed
three-constant function of `route_type`. -/
theorem merge_route_flags_and_color (fl : List Flight) (r : Route)
    (hr : r ∈ merge_flights_to_routes fl) :
    r.has_morning = r.flights.any (fun f => f.is_morning)
      ∧ r.has_evening = r.flights.any (fun f => !f.is_morning)
      ∧ r.route_type
          = (if r.has_morning && r.has_evening then "早晚班"
             else if r.has_morning then "早班" else "晚班")
      ∧ r.color
          = (if r.route_type = "早晚班" then "#CE6A85"
             else if r.route_type = "早班" then "#FF8C61" else "#4E598C") := by
  obtain ⟨-, h2, h3, h4, h5, -⟩ := merge_route_fields hr
  refine ⟨h2, h3, ?_, ?_⟩
  · rw [h5]
    cases hm : r.has_morning <;> cases he : r.has_evening <;> decide
  · rw [h4, h5]
    cases hm : r.has_morning <;> cases he : r.has_evening <;> decide

/-- Witness for C1: the aggregate of the 08:00/05:00 pair. -/
theorem merge_route_flags_and_color_witness :
    exRoute ∈ merge_flights_to_routes exFlights
      ∧ exRoute.route_type
          = (if exRoute.has_morning && exRoute.has_evening then "早晚班"
             else if exRoute.has_morning then "早班" else "晚班") :=
  have h : exRoute ∈ merge_flights_to_routes exFlights := by decide
  ⟨h, (merge_route_flags_and_color exFlights exRoute h).2.2.1⟩

/-- Claim C2.  One route per distinct key, in first-seen order of the
key, never re-sorted; every flight lands in exactly the route keyed
`departure ++ "-" ++ arrival`; each route's flight list is the input
subsequence with that key, in input order. -/
theorem merge_partition (fl : List Flight) :
    (merge_flights_to_routes fl).map Route.route_key
        = firstSeenDedup (fl.map routeKey)
      ∧ ((merge_flights_to_routes fl).map Route.route_key).Nodup
      ∧ (∀ r ∈ merge_flights_to_routes fl,
          r.flights = fl.filter (fun f => routeKey f == r.route_key))
      ∧ (∀ r ∈ merge_flights_to_routes fl, ∀ f ∈ r.flights,
          routeKey f = r.route_key)
      ∧ ∀ f ∈ fl, ∃ r ∈ merge_flights_to_routes fl,
          f ∈ r.flights ∧ r.route_key = routeKey f := by
  refine ⟨merge_keys fl, ?_, ?_, ?_, ?_⟩
  · rw [merge_keys]
    exact nodup_firstSeenDedup
  · intro r hr
    exact (merge_route_fields hr).1
  · intro r hr f hf
    rw [(merge_route_fields hr).1] at hf
    exact beq_iff_eq.mp (List.mem_filter.mp hf).2
  · intro f hf
    refine ⟨finalizeRoute (routeKey f)
        (buildAcc (fl.filter (fun g => routeKey g == routeKey f))),
      mem_merge_iff.mpr
        ⟨routeKey f,
          mem_firstSeenDedup.mpr (List.mem_map_of_mem routeKey hf), rfl⟩,
      ?_, rfl⟩
    show f ∈ (buildAcc _).flights
    rw [buildAcc, foldl_updAcc_flights]
    exact List.mem_filter.mpr ⟨hf, by simp⟩

/-- Witness for C2: the 08:00/05:00 pair and its single route. -/
theorem merge_partition_witness :
    exRoute ∈ merge_flights_to_routes exFlights
      ∧ exRoute.flights
          = exFlights.filter (fun f => routeKey f == exRoute.route_key) :=
  have h : exRoute ∈ merge_flights_to_routes exFlights := by decide
  ⟨h, (merge_partition exFlights).2.2.1 exRoute h⟩

/-! ## Generic helper lemmas -/

theorem any_congr_mem {α : Type} {l : List α} {p q : α → Bool}
    (h : ∀ a ∈ l, p a = q a) : l.any p = l.any q := by
  induction l with
  | nil => rfl
  | cons a t ih =>
    simp only [List.any_cons]
    rw [h a (List.mem_cons_self ..),
      ih (fun b hb => h b (List.mem_cons_of_mem _ hb))]

theorem mem_pyStrip {l : List Char} {c : Char} (h : c ∈ pyStrip l) :
    c ∈ l := by
  unfold pyStrip at h
  rw [List.mem_reverse] at h
  have h1 := (List.dropWhile_sublist (l := (l.dropWhile isPySpace).reverse)
    (p := isPySpace)).mem h
  rw [List.mem_reverse] at h1
  exact (List.dropWhile_sublist (l := l) (p := isPySpace)).mem h1

theorem pyInt_eq_none_of_no_digit {l : List Char}
    (h : ∀ c ∈ l, isDigitCh c = false) : pyInt l = none := by
  have hs : ∀ c ∈ pyStrip l, isDigitCh c = false :=
    fun c hc => h c (mem_pyStrip hc)
  have hnat : ∀ t : List Char, (∀ c ∈ t, isDigitCh c = false) →
      natOfDigits t = none := by
    intro t ht
    unfold natOfDigits
    cases t with
    | nil => simp
    | cons d u =>
      rw [if_neg]
      rintro ⟨-, hall⟩
      have h1 := List.all_eq_true.mp hall d (List.mem_cons_self ..)
      rw [ht d (List.mem_cons_self ..)] at h1
      cases h1
  unfold pyInt
  cases hp : pyStrip l with
  | nil => rfl
  | cons c rest =>
    dsimp only
    have hnd : ∀ x ∈ c :: rest, isDigitCh x = false := hp ▸ hs
    have hrest : natOfDigits rest = none :=
      hnat rest (fun x hx => hnd x (List.mem_cons_of_mem _ hx))
    have hall : natOfDigits (c :: rest) = none := hnat _ hnd
    by_cases h1 : c = '+'
    · rw [if_pos h1, hrest]
      rfl
    · rw [if_neg h1]
      by_cases h2 : c = '-'
      · rw [if_pos h2, hrest]
        rfl
      · rw [if_neg h2, hall]
        rfl

theorem mem_of_mem_splitOnPred {p : Char → Bool} :
    ∀ {l part : List Char}, part ∈ splitOnPred p l → ∀ c ∈ part, c ∈ l := by
  intro l
  induction l with
  | nil =>
    intro part hp c hc
    simp [splitOnPred] at hp
    subst hp
    exact absurd hc (List.not_mem_nil c)
  | cons x t ih =>
    intro part hp c hc
    unfold splitOnPred at hp
    cases hsp : splitOnPred p t with
    | nil =>
      rw [hsp] at hp
      simp at hp
      subst hp
      exact absurd hc (List.not_mem_nil c)
    | cons hh rr =>
      rw [hsp] at hp
      dsimp only at hp
      by_cases hx : p x
      · rw [if_pos hx] at hp
        rcases List.mem_cons.mp hp with rfl | hp'
        · exact absurd hc (List.not_mem_nil c)
        · exact List.mem_cons_of_mem _ (ih (hsp ▸ hp') c hc)
      · rw [if_neg hx] at hp
        rcases List.mem_cons.mp hp with rfl | hp'
        · rcases List.mem_cons.mp hc with rfl | hc'
          · exact List.mem_cons_self ..
          · exact List.mem_cons_of_mem _
              (ih (hsp ▸ List.mem_cons_self ..) c hc')
        · exact List.mem_cons_of_mem _
            (ih (hsp ▸ List.mem_cons_of_mem _ hp') c hc)

/-- The fields of a flight the row loop emits, in terms of the row. -/
theorem processRow_fields {dict : String → Option Coord} {row : Row}
    {f : Flight} (h : processRow dict row = some f) :
    f.departure_time = parse_time row.departure_time
      ∧ f.is_morning = is_morning_flight f.departure_time
      ∧ f.aircraft_type
          = (match row.aircraft_type with
             | none => "未知机型"
             | some s => s)
      ∧ f.individual_aircraft
          = (if f.aircraft_type ≠ "" ∧ f.aircraft_type ≠ "未知机型"
             then tokenizeAircraft f.aircraft_type
             else []) := by
  unfold processRow at h
  dsimp only at h
  cases hd : dict ((pyStrip (pyStr row.departure).data).asString) with
  | none =>
    rw [hd] at h
    cases h
  | some dc =>
    cases ha : dict ((pyStrip (pyStr row.arrival).data).asString) with
    | none =>
      rw [hd, ha] at h
      cases h
    | some ac =>
      rw [hd, ha] at h
      injection h with h
      subst h
      exact ⟨rfl, rfl, rfl, rfl⟩

/-- Counterexample to claim C4 as stated: the 08:00/05:00 route is
classified `早晚班` ("both") although every member flight has a known
departure hour strictly before noon, so the route has no flight "at or
after noon or with unknown time".  The code's second flag is set by
`is_morning = False`, which a 05:00 departure also satisfies. -/
theorem route_both_noon_counterexample :
    exRoute ∈ merge_flights_to_routes exFlights
      ∧ exRoute.route_type = "早晚班"
      ∧ exRoute.flights.all
          (fun f =>
            match f.departure_time with
            | some t => decide (t.hour < 12)
            | none => false) = true := by
  decide

/-- Claim C4, amended.  For flights whose `is_morning` field is
consistent with their departure time (as the pipeline guarantees), a
route is classified `早晚班` ("both") exactly when it has at least one
flight with departure hour in [6, 12) and at least one flight whose
departure time is unknown or has hour outside [6, 12) — not "before
noon" versus "at/after noon or unknown" as the claim put it. -/
theorem route_both_iff_amended (fl : List Flight)
    (hcons : ∀ f ∈ fl, f.is_morning = is_morning_flight f.departure_time)
    (r : Route) (hr : r ∈ merge_flights_to_routes fl) :
    (r.route_type = "早晚班"
      ↔ r.flights.any
            (fun f =>
              match f.departure_time with
              | some t => decide (6 ≤ t.hour ∧ t.hour < 12)
              | none => false) = true
          ∧ r.flights.any
            (fun f =>
              match f.departure_time with
              | some t => decide (t.hour < 6 ∨ 12 ≤ t.hour)
              | none => true) = true) := by
  obtain ⟨hfl, h2, h3, -, h5, -⟩ := merge_route_fields hr
  have hmemfl : ∀ f ∈ r.flights, f ∈ fl := by
    intro f hf
    rw [hfl] at hf
    exact (List.mem_filter.mp hf).1
  have hA : ∀ f ∈ r.flights, f.is_morning
      = (match f.departure_time with
         | some t => decide (6 ≤ t.hour ∧ t.hour < 12)
         | none => false) := by
    intro f hf
    rw [hcons f (hmemfl f hf)]
    cases f.departure_time <;> rfl
  have hB : ∀ f ∈ r.flights, (!f.is_morning)
      = (match f.departure_time with
         | some t => decide (t.hour < 6 ∨ 12 ≤ t.hour)
         | none => true) := by
    intro f hf
    rw [hcons f (hmemfl f hf)]
    cases ht : f.departure_time with
    | none => rfl
    | some t =>
      show ((!decide (6 ≤ t.hour ∧ t.hour < 12))
          = decide (t.hour < 6 ∨ 12 ≤ t.hour))
      rw [← decide_not]
      exact decide_eq_decide.mpr (by omega)
  have htype : r.route_type = "早晚班"
      ↔ (r.has_morning = true ∧ r.has_evening = true) := by
    rw [h5]
    cases r.has_morning <;> cases r.has_evening <;> decide
  rw [htype, h2, h3,
    any_congr_mem (fun f hf => (hA f hf).symm),
    any_congr_mem (fun f hf => (hB f hf).symm)]

/-- Witness for the amended C4 at the 08:00/05:00 route. -/
theorem route_both_iff_amended_witness :
    exRoute.route_type = "早晚班"
      ↔ exRoute.flights.any
            (fun f =>
              match f.departure_time with
              | some t => decide (6 ≤ t.hour ∧ t.hour < 12)
              | none => false) = true
          ∧ exRoute.flights.any
            (fun f =>
              match f.departure_time with
              | some t => decide (t.hour < 6 ∨ 12 ≤ t.hour)
              | none => true) = true :=
  route_both_iff_amended exFlights (by decide) exRoute (by decide)

/-- Counterexample to claim C10 as stated: a row whose aircraft cell is
`未知机型/A320` passes the whole-string sentinel guard (it differs from
the bare sentinel), so tokenisation puts the sentinel itself into the
route's individual-aircraft set — even though no flight's
`aircraft_type` equals the sentinel. -/
theorem sentinel_individual_counterexample :
    (merge_flights_to_routes (pipelineFlights exDict [exRowSentinel])).any
        (fun r => r.individual_aircraft.contains "未知机型") = true
      ∧ (pipelineFlights exDict [exRowSentinel]).all
          (fun f => f.aircraft_type != "未知机型") = true := by
  decide

/-- Claim C10, amended.  The sentinel always reaches the route's
`aircraft_types` set when a member flight's `aircraft_type` is the
sentinel; it stays out of `individual_aircraft` only under the proviso
that no row's aircraft cell contains the sentinel as one token among
others — the guard tests whole-string equality, not tokens, so a cell
such as `未知机型/A320` defeats it. -/
theorem sentinel_individual_amended (dict : String → Option Coord)
    (rows : List Row) :
    (∀ r ∈ merge_flights_to_routes (pipelineFlights dict rows),
        ∀ f ∈ r.flights, f.aircraft_type = "未知机型" →
          "未知机型" ∈ r.aircraft_types)
      ∧ ((∀ row ∈ rows,
            match row.aircraft_type with
            | none => True
            | some cell =>
                cell = "未知机型" ∨ "未知机型" ∉ tokenizeAircraft cell) →
          ∀ r ∈ merge_flights_to_routes (pipelineFlights dict rows),
            "未知机型" ∉ r.individual_aircraft) := by
  constructor
  · intro r hr f hf hsent
    rcases mem_merge_iff.mp hr with ⟨k, hk, rfl⟩
    show "未知机型" ∈ (buildAcc _).aircraft_types
    rw [buildAcc, foldl_updAcc_mem_types]
    refine Or.inr ⟨f, ?_, hsent⟩
    have : (buildAcc ((pipelineFlights dict rows).filter
        (fun g => routeKey g == k))).flights
        = (pipelineFlights dict rows).filter (fun g => routeKey g == k) := by
      rw [buildAcc, foldl_updAcc_flights]
      rfl
    exact this ▸ hf
  · intro htok r hr hsent
    rcases mem_merge_iff.mp hr with ⟨k, hk, rfl⟩
    rw [show (finalizeRoute k (buildAcc ((pipelineFlights dict rows).filter
          (fun g => routeKey g == k)))).individual_aircraft
        = (buildAcc ((pipelineFlights dict rows).filter
            (fun g => routeKey g == k))).individual_aircraft from rfl,
      buildAcc, foldl_updAcc_mem_individual] at hsent
    rcases hsent with hsent | ⟨f, hf, hcase⟩
    · exact absurd hsent (List.not_mem_nil _)
    · have hfpipe : f ∈ pipelineFlights dict rows :=
        (List.mem_filter.mp hf).1
      rcases List.mem_filterMap.mp hfpipe with ⟨row, hrow, hproc⟩
      obtain ⟨-, -, hat, hia⟩ := processRow_fields hproc
      have hrowtok := htok row hrow
      rcases hcell : row.aircraft_type with _ | cell
      · rw [hcell] at hat
        rcases hcase with ⟨⟨-, hne⟩, -⟩ | hfield
        · exact hne hat
        · rw [hia, if_neg (fun hand => hand.2 hat)] at hfield
          exact absurd hfield (List.not_mem_nil _)
      · rw [hcell] at hat hrowtok
        dsimp only at hat hrowtok
        rcases hrowtok with hsentcell | hnotok
        · have hat' : f.aircraft_type = "未知机型" := hat.trans hsentcell
          rcases hcase with ⟨⟨-, hne⟩, -⟩ | hfield
          · exact hne hat'
          · rw [hia, if_neg (fun hand => hand.2 hat')] at hfield
            exact absurd hfield (List.not_mem_nil _)
        · rcases hcase with ⟨-, htokmem⟩ | hfield
          · exact hnotok (hat ▸ htokmem)
          · rw [hia] at hfield
            by_cases hguard : f.aircraft_type ≠ "" ∧ f.aircraft_type ≠ "未知机型"
            · rw [if_pos hguard] at hfield
              exact hnotok (hat ▸ hfield)
            · rw [if_neg hguard] at hfield
              exact absurd hfield (List.not_mem_nil _)

/-- Witness for the amended C10: the 08:00/05:00 pair, whose B738
cells tokenise without the sentinel. -/
theorem sentinel_individual_amended_witness :
    "未知机型" ∉ exRoute.individual_aircraft :=
  (sentinel_individual_amended exDict [exRowMorning, exRowEarly]).2
    (by
      intro row hrow
      rcases List.mem_cons.mp hrow with rfl | hrow
      · exact Or.inr (by decide)
      · rcases List.mem_cons.mp hrow with rfl | hrow
        · exact Or.inr (by decide)
        · exact absurd hrow (List.not_mem_nil _))
    exRoute (by decide)

/-- Claim C9.  `parse_time` returns `None` for a missing value and for
inputs without a single digit (each branch of the function fails to
build an integer, and every failure is caught and converted to
`None`); a resolvable row is still turned into a flight when its time
is unparseable — the flight carries a `None` time — and every flight
handed to the aggregator lands in a route. -/
theorem parse_time_failure_flight_kept :
    parse_time none = none
      ∧ (∀ s : String, s.data.all (fun c => !isDigitCh c) = true →
          parse_time (some s) = none)
      ∧ (∀ (dict : String → Option Coord) (row : Row),
          (dict ((pyStrip (pyStr row.departure).data).asString)).isSome
              = true →
          (dict ((pyStrip (pyStr row.arrival).data).asString)).isSome
              = true →
          ∃ f, processRow dict row = some f
            ∧ f.departure_time = parse_time row.departure_time
            ∧ f.is_morning = is_morning_flight (parse_time row.departure_time))
      ∧ ∀ (fl : List Flight) (f : Flight), f ∈ fl →
          ∃ r ∈ merge_flights_to_routes fl, f ∈ r.flights := by
  refine ⟨rfl, ?_, ?_, ?_⟩
  · intro s hs
    have hnd : ∀ c ∈ pyStrip s.data, isDigitCh c = false := by
      intro c hc
      have h1 := List.all_eq_true.mp hs c (mem_pyStrip hc)
      cases hb : isDigitCh c
      · rfl
      · rw [hb] at h1
        simp at h1
    show parse_time (some s) = none
    unfold parse_time
    dsimp only
    by_cases hc : (pyStrip s.data).contains ':'
    · rw [if_pos hc]
      have hsub : ∀ part ∈ splitOnPred (fun c => c = ':') (pyStrip s.data),
          pyInt part = none := by
        intro part hp
        exact pyInt_eq_none_of_no_digit
          (fun c hcp => hnd c (mem_of_mem_splitOnPred hp c hcp))
      cases hsp : splitOnPred (fun c => c = ':') (pyStrip s.data) with
      | nil => rfl
      | cons a r2 =>
        cases r2 with
        | nil => rfl
        | cons b r3 =>
          cases r3 with
          | nil =>
            have hA := hsub a (by rw [hsp]; exact List.mem_cons_self ..)
            have hB := hsub b (by rw [hsp]; simp)
            dsimp only
            rw [hA, hB]
          | cons d r4 => rfl
    · rw [if_neg hc]
      have hcheck :
          (!((pyStrip s.data).filter (fun c => c ≠ '.')).isEmpty
            && ((pyStrip s.data).filter (fun c => c ≠ '.')).all isDigitCh)
            = false := by
        cases hnodot : (pyStrip s.data).filter (fun c => c ≠ '.') with
        | nil => simp [hnodot]
        | cons d t =>
          have hdmem : d ∈ pyStrip s.data :=
            (List.mem_filter.mp (hnodot ▸ List.mem_cons_self ..)).1
          simp [hnodot, hnd d hdmem]
      rw [hcheck]
      have h0 : pyInt (pyStrip s.data) = none :=
        pyInt_eq_none_of_no_digit hnd
      have htk : ∀ n, pyInt ((pyStrip s.data).take n) = none := fun n =>
        pyInt_eq_none_of_no_digit
          (fun c hcp => hnd c (List.mem_of_mem_take hcp))
      have hdr : ∀ n, pyInt ((pyStrip s.data).drop n) = none := fun n =>
        pyInt_eq_none_of_no_digit
          (fun c hcp => hnd c (List.mem_of_mem_drop hcp))
      show (if (pyStrip s.data).length ≤ 2 then _
            else if (pyStrip s.data).length = 3 then _ else _) = none
      by_cases hl1 : (pyStrip s.data).length ≤ 2
      · rw [if_pos hl1]
        rw [h0]
      · rw [if_neg hl1]
        by_cases hl2 : (pyStrip s.data).length = 3
        · rw [if_pos hl2, htk 1, hdr 1]
        · rw [if_neg hl2, htk 2, hdr 2]
  · intro dict row hd ha
    rcases Option.isSome_iff_exists.mp hd with ⟨dc, hdc⟩
    rcases Option.isSome_iff_exists.mp ha with ⟨ac, hac⟩
    have hsome : ∃ f, processRow dict row = some f := by
      unfold processRow
      dsimp only
      rw [hdc, hac]
      exact ⟨_, rfl⟩
    rcases hsome with ⟨f, hf⟩
    obtain ⟨h1, h2, -, -⟩ := processRow_fields hf
    exact ⟨f, hf, h1, by rw [h2, h1]⟩
  · intro fl f hf
    refine ⟨finalizeRoute (routeKey f)
        (buildAcc (fl.filter (fun g => routeKey g == routeKey f))),
      mem_merge_iff.mpr
        ⟨routeKey f,
          mem_firstSeenDedup.mpr (List.mem_map_of_mem routeKey hf), rfl⟩,
      ?_⟩
    show f ∈ (buildAcc _).flights
    rw [buildAcc, foldl_updAcc_flights]
    exact List.mem_filter.mpr ⟨hf, by simp⟩

/-- Witness for C9: the literal `"abc"` parses to `None`, and the row
with that departure time still becomes a flight. -/
theorem parse_time_failure_flight_kept_witness :
    parse_time (some "abc") = none
      ∧ (processRow exDict exRowBadTime).isSome = true :=
  ⟨parse_time_failure_flight_kept.2.1 "abc" (by decide),
   (parse_time_failure_flight_kept.2.2.1 exDict exRowBadTime (by decide)
       (by decide)).elim
     (fun f hf => by rw [hf.1]; rfl)⟩

/-- Claim C8.  `is_morning_flight` is true exactly for a non-null time
with hour in [6, 12); a null time gives `false`.  The boundary is 6
inclusive and 12 exclusive: the 04:00 and 05:00 examples show the
docstring's claimed 4 o'clock boundary is not what the comparison
implements. -/
theorem is_morning_boundary :
    (∀ t : Option TimeInfo,
        is_morning_flight t = true
          ↔ ∃ ti, t = some ti ∧ 6 ≤ ti.hour ∧ ti.hour < 12)
      ∧ is_morning_flight none = false
      ∧ is_morning_flight (some (mkTimeInfo 4 0)) = false
      ∧ is_morning_flight (some (mkTimeInfo 5 59)) = false
      ∧ is_morning_flight (some (mkTimeInfo 6 0)) = true
      ∧ is_morning_flight (some (mkTimeInfo 11 59)) = true
      ∧ is_morning_flight (some (mkTimeInfo 12 0)) = false := by
  refine ⟨?_, rfl, by decide, by decide, by decide, by decide, by decide⟩
  intro t
  cases t with
  | none => simp [is_morning_flight]
  | some ti => simp [is_morning_flight]

/-- Claim C7.  `classify_aircraft_size` implements the specification's
count-based rule: upper-case and trim, test the three fixed code lists
(2/9/4 codes) by substring containment, return the unique matching
category or `默认` (default) when zero or several categories match;
missing input and the two spec examples also give the default. -/
theorem classify_aircraft_size_spec :
    (∀ raw, classify_aircraft_size raw = spec_classifyAircraftSize raw)
      ∧ small_aircraft.length = 2
      ∧ medium_aircraft.length = 9
      ∧ large_aircraft.length = 4
      ∧ classify_aircraft_size none = "默认"
      ∧ classify_aircraft_size (some "E190/A332") = "默认"
      ∧ classify_aircraft_size (some "XYZ999") = "默认" := by
  refine ⟨?_, rfl, rfl, rfl, rfl, by decide, by decide⟩
  intro raw
  cases raw with
  | none => rfl
  | some str =>
    unfold classify_aircraft_size spec_classifyAircraftSize
    dsimp only
    cases hs : small_aircraft.any
        (fun a => strContainsSub a.data ((pyStrip str.data).map Char.toUpper)) <;>
    cases hm : medium_aircraft.any
        (fun a => strContainsSub a.data ((pyStrip str.data).map Char.toUpper)) <;>
    cases hl : large_aircraft.any
        (fun a => strContainsSub a.data ((pyStrip str.data).map Char.toUpper)) <;>
    simp [List.filter, hs, hm, hl]

/-- Counterexample to claim C6 as stated: `parse_days` builds a Python
list, not a set — `"118"` yields `[1, 1, 8]`, which keeps the
duplicate `1` — and it keeps every decimal digit, so `8` (outside
[1,7]) is included as well. -/
theorem parse_days_counterexample :
    parse_days (some "118") = [1, 1, 8]
      ∧ ¬ (parse_days (some "118")).Nodup
      ∧ (parse_days (some "118")).all (fun d => decide (1 ≤ d ∧ d ≤ 7))
          = false := by
  decide

/-- Claim C6, amended.  `parse_days` returns the list of the values of
the decimal digit characters of the stripped input, in order of
appearance with duplicates preserved; every element is at most 9 (the
digits 0, 8 and 9 are not filtered out), non-digit characters are
ignored, a missing or empty input yields the empty list, and
`parse_days "1234567" = [1,…,7]`. -/
theorem parse_days_amended :
    parse_days none = []
      ∧ parse_days (some "") = []
      ∧ parse_days (some "1234567") = [1, 2, 3, 4, 5, 6, 7]
      ∧ (∀ s : String,
          (parse_days (some s)).all (fun d => decide (d ≤ 9)) = true)
      ∧ ∀ (s : String) (d : Nat),
          (parse_days (some s)).count d
            = ((pyStrip s.data).filter
                (fun c => isDigitCh c && digitVal c == d)).length := by
  refine ⟨rfl, by decide, by decide, ?_, ?_⟩
  · intro s
    rw [List.all_eq_true]
    intro d hd
    rcases List.mem_map.mp hd with ⟨c, hc, rfl⟩
    have hdig := (List.mem_filter.mp hc).2
    unfold isDigitCh at hdig
    have hrange := of_decide_eq_true hdig
    unfold digitVal
    exact decide_eq_true (by omega)
  · intro s d
    show (((pyStrip s.data).filter isDigitCh).map digitVal).count d = _
    rw [List.count_eq_countP, List.countP_map, List.countP_filter,
      ← List.countP_eq_length_filter]
    apply List.countP_congr
    intro c _
    simp only [Function.comp_apply, Bool.and_comm]

/-! ## Digit-string lemmas for `parse_time` -/

theorem isPySpace_eq_false_of_digit {c : Char} (h : isDigitCh c = true) :
    isPySpace c = false := by
  cases hsp : isPySpace c
  · rfl
  · exfalso
    unfold isPySpace at hsp
    simp only [Bool.or_eq_true, decide_eq_true_eq] at hsp
    rcases hsp with ((((h1 | h1) | h1) | h1) | h1) | h1 <;>
      (subst h1; exact absurd h (by decide))

theorem dropWhile_eq_self_of_all {p : Char → Bool} {m : List Char}
    (hm : ∀ c ∈ m, p c = false) : m.dropWhile p = m := by
  cases m with
  | nil => rfl
  | cons x t =>
    rw [List.dropWhile_cons, hm x (List.mem_cons_self ..)]
    rfl

theorem pyStrip_eq_self_of_all {l : List Char}
    (h : ∀ c ∈ l, isPySpace c = false) : pyStrip l = l := by
  unfold pyStrip
  rw [dropWhile_eq_self_of_all h,
    dropWhile_eq_self_of_all (fun c hc => h c (List.mem_reverse.mp hc)),
    List.reverse_reverse]

theorem takeWhile_eq_self_of_all {p : Char → Bool} :
    ∀ {m : List Char}, (∀ c ∈ m, p c = true) → m.takeWhile p = m := by
  intro m
  induction m with
  | nil => intro _; rfl
  | cons x t ih =>
    intro hm
    rw [List.takeWhile_cons, hm x (List.mem_cons_self ..)]
    rw [ih (fun c hc => hm c (List.mem_cons_of_mem _ hc))]
    rfl

/-- Evaluation of int(...) on a nonempty all-digit string: its value. -/
theorem pyInt_digits {l : List Char} (hne : l ≠ [])
    (hd : l.all isDigitCh = true) :
    pyInt l = some (Int.ofNat (digitsVal l)) := by
  have hall := List.all_eq_true.mp hd
  have hstrip : pyStrip l = l :=
    pyStrip_eq_self_of_all
      (fun c hc => isPySpace_eq_false_of_digit (hall c hc))
  unfold pyInt
  rw [hstrip]
  cases l with
  | nil => exact absurd rfl hne
  | cons c rest =>
    dsimp only
    have hc : isDigitCh c = true := hall c (List.mem_cons_self ..)
    rw [if_neg (fun h => by rw [h] at hc; exact absurd hc (by decide)),
      if_neg (fun h => by rw [h] at hc; exact absurd hc (by decide))]
    unfold natOfDigits
    rw [if_pos ⟨by simp, hd⟩]
    rfl

theorem contains_eq_false_of_digits {l : List Char} {c : Char}
    (hd : l.all isDigitCh = true) (hc : isDigitCh c = false) :
    l.contains c = false := by
  cases hcon : l.contains c
  · rfl
  · exfalso
    have hmem : c ∈ l := List.mem_of_elem_eq_true hcon
    rw [List.all_eq_true.mp hd c hmem] at hc
    cases hc

theorem canonDigits_all {l : List Char} (hd : l.all isDigitCh = true) :
    canonDigits l ≠ [] ∧ (canonDigits l).all isDigitCh = true := by
  unfold canonDigits
  cases hdw : l.dropWhile (fun c => c = '0') with
  | nil => exact ⟨by simp, by decide⟩
  | cons a t =>
    refine ⟨by simp, ?_⟩
    rw [List.all_eq_true]
    intro c hc
    exact List.all_eq_true.mp hd c
      ((List.dropWhile_sublist (l := l) (p := fun c => c = '0')).mem
        (hdw ▸ hc))

theorem canonDigits_eq_self {l : List Char}
    (hlz : l.head? ≠ some '0' ∨ l = ['0']) (hne : l ≠ []) :
    canonDigits l = l := by
  rcases hlz with h | rfl
  · cases l with
    | nil => exact absurd rfl hne
    | cons a t =>
      unfold canonDigits
      rw [List.dropWhile_cons,
        if_neg (by simpa using fun heq => h (by rw [heq]; rfl))]
  · decide

theorem digitVal_le_nine {c : Char} (h : isDigitCh c = true) :
    digitVal c ≤ 9 := by
  unfold isDigitCh at h
  have h1 := of_decide_eq_true h
  unfold digitVal
  omega

theorem digitsVal_single (a : Char) : digitsVal [a] = digitVal a := by
  show 0 * 10 + digitVal a = digitVal a
  omega

theorem digitsVal_pair (a b : Char) :
    digitsVal [a, b] = digitVal a * 10 + digitVal b := by
  show (0 * 10 + digitVal a) * 10 + digitVal b = _
  omega

theorem all_take_digits {l : List Char} (n : Nat)
    (hd : l.all isDigitCh = true) : (l.take n).all isDigitCh = true :=
  List.all_eq_true.mpr
    (fun c hc => List.all_eq_true.mp hd c (List.mem_of_mem_take hc))

theorem all_drop_digits {l : List Char} (n : Nat)
    (hd : l.all isDigitCh = true) : (l.drop n).all isDigitCh = true :=
  List.all_eq_true.mpr
    (fun c hc => List.all_eq_true.mp hd c (List.mem_of_mem_drop hc))

theorem mkTimeInfo_hour (h m : Int) : (mkTimeInfo h m).hour = h := rfl

theorem mkTimeInfo_minute (h m : Int) : (mkTimeInfo h m).minute = m := rfl

theorem mkTimeInfo_is_next_day (h m : Int) :
    (mkTimeInfo h m).is_next_day = decide (h < 6) := rfl

/-- Evaluation of `parse_time` on a nonempty all-digit string: the
string is normalised to its canonical numeral (leading zeros
stripped) and then decoded by the length rule. -/
theorem parse_time_digits (s : String) (hne : s.data ≠ [])
    (hd : s.data.all isDigitCh = true) :
    parse_time (some s)
      = (if (canonDigits s.data).length ≤ 2 then
          some (mkTimeInfo 0 (Int.ofNat (digitsVal (canonDigits s.data))))
        else if (canonDigits s.data).length = 3 then
          some (mkTimeInfo
            (Int.ofNat (digitsVal ((canonDigits s.data).take 1)))
            (Int.ofNat (digitsVal ((canonDigits s.data).drop 1))))
        else
          some (mkTimeInfo
            (Int.ofNat (digitsVal ((canonDigits s.data).take 2)))
            (Int.ofNat (digitsVal ((canonDigits s.data).drop 2))))) := by
  have hall := List.all_eq_true.mp hd
  have hstrip : pyStrip s.data = s.data :=
    pyStrip_eq_self_of_all
      (fun c hc => isPySpace_eq_false_of_digit (hall c hc))
  have hnocolon : s.data.contains ':' = false :=
    contains_eq_false_of_digits hd (by decide)
  have hnodot : ∀ c ∈ s.data, ¬(c = '.') := by
    intro c hc h
    rw [h] at hc
    have := hall '.' hc
    exact absurd this (by decide)
  have hfilter : s.data.filter (fun c => c ≠ '.') = s.data :=
    List.filter_eq_self.mpr (fun c hc => decide_eq_true (hnodot c hc))
  have htake : s.data.takeWhile (fun c => c ≠ '.') = s.data :=
    takeWhile_eq_self_of_all (fun c hc => decide_eq_true (hnodot c hc))
  have hcount : s.data.count '.' = 0 :=
    List.count_eq_zero.mpr (fun h => hnodot '.' h rfl)
  have hisEmpty : s.data.isEmpty = false := by
    cases hsd : s.data with
    | nil => exact absurd hsd hne
    | cons a t => rfl
  obtain ⟨hc0ne, hc0d⟩ := canonDigits_all (l := s.data) hd
  unfold parse_time
  dsimp only
  rw [hstrip, hnocolon, if_neg Bool.false_ne_true, hfilter, hisEmpty, hd]
  rw [if_pos (show (!false && true) = true by decide)]
  unfold pyNumCanon
  rw [hcount, if_neg (by omega), htake]
  dsimp only
  by_cases h1 : (canonDigits s.data).length ≤ 2
  · rw [if_pos h1, if_pos h1, pyInt_digits hc0ne hc0d]
  · rw [if_neg h1, if_neg h1]
    by_cases h2 : (canonDigits s.data).length = 3
    · rw [if_pos h2, if_pos h2,
        pyInt_digits
          (List.ne_nil_of_length_pos (by rw [List.length_take]; omega))
          (all_take_digits 1 hc0d),
        pyInt_digits
          (List.ne_nil_of_length_pos (by rw [List.length_drop]; omega))
          (all_drop_digits 1 hc0d)]
    · rw [if_neg h2, if_neg h2,
        pyInt_digits
          (List.ne_nil_of_length_pos (by rw [List.length_take]; omega))
          (all_take_digits 2 hc0d),
        pyInt_digits
          (List.ne_nil_of_length_pos (by rw [List.length_drop]; omega))
          (all_drop_digits 2 hc0d)]

/-- Every non-`None` result of `parse_time` is built by `mkTimeInfo`:
the function has no other way to construct the dictionary. -/
theorem parse_time_shape (raw : Option String) :
    parse_time raw = none
      ∨ ∃ h m, parse_time raw = some (mkTimeInfo h m) := by
  unfold parse_time
  cases raw with
  | none => exact Or.inl rfl
  | some s =>
    dsimp only
    repeat' split
    all_goals
      first
        | exact Or.inl rfl
        | exact Or.inr ⟨_, _, rfl⟩

/-- Counterexample to claim C5 as stated: `parse_time` performs no range
validation — `"999"` decodes to minute 99 and `"25:99"` to hour 25,
well outside [0,23] × [0,59]. -/
theorem parse_time_range_counterexample :
    parse_time (some "999")
        = some { hour := 9, minute := 99, is_next_day := false,
                 display := "09:99" }
      ∧ ¬ ((99 : Int) ≤ 59)
      ∧ parse_time (some "25:99")
        = some { hour := 25, minute := 99, is_next_day := false,
                 display := "25:99" }
      ∧ ¬ ((25 : Int) ≤ 23) := by
  decide

/-- Claim C5, amended.  On colon-free all-digit inputs the hour and
minute are nonnegative and the hour is at most 99 (it comes from at
most two decimal digits), but the [0,23] × [0,59] bounds of the claim
are not enforced anywhere. -/
theorem parse_time_range_amended (s : String) (t : TimeInfo)
    (hne : s.data ≠ []) (hd : s.data.all isDigitCh = true)
    (hp : parse_time (some s) = some t) :
    0 ≤ t.hour ∧ t.hour ≤ 99 ∧ 0 ≤ t.minute := by
  rw [parse_time_digits s hne hd] at hp
  obtain ⟨hc0ne, hc0d⟩ := canonDigits_all (l := s.data) hd
  have hc0all := List.all_eq_true.mp hc0d
  by_cases h1 : (canonDigits s.data).length ≤ 2
  · rw [if_pos h1] at hp
    obtain rfl := (Option.some_inj.mp hp).symm
    refine ⟨by rw [mkTimeInfo_hour], by rw [mkTimeInfo_hour]; decide, ?_⟩
    rw [mkTimeInfo_minute]
    exact Int.ofNat_nonneg _
  · rw [if_neg h1] at hp
    by_cases h2 : (canonDigits s.data).length = 3
    · rw [if_pos h2] at hp
      obtain rfl := (Option.some_inj.mp hp).symm
      obtain ⟨a, t1, hc0⟩ : ∃ a t1, canonDigits s.data = a :: t1 := by
        cases hc : canonDigits s.data with
        | nil => exact absurd hc hc0ne
        | cons a t1 => exact ⟨a, t1, rfl⟩
      have ha : isDigitCh a = true :=
        hc0all a (hc0 ▸ List.mem_cons_self ..)
      refine ⟨?_, ?_, ?_⟩
      · rw [mkTimeInfo_hour]
        exact Int.ofNat_nonneg _
      · rw [mkTimeInfo_hour, hc0]
        show (digitsVal [a] : Int) ≤ 99
        rw [digitsVal_single]
        have := digitVal_le_nine ha
        omega
      · rw [mkTimeInfo_minute]
        exact Int.ofNat_nonneg _
    · rw [if_neg h2] at hp
      obtain rfl := (Option.some_inj.mp hp).symm
      obtain ⟨a, b, t1, hc0⟩ : ∃ a b t1, canonDigits s.data = a :: b :: t1 := by
        have hlen : 4 ≤ (canonDigits s.data).length := by omega
        cases hc : canonDigits s.data with
        | nil => rw [hc] at hlen; simp at hlen
        | cons a t0 =>
          cases t0 with
          | nil => rw [hc] at hlen; simp at hlen
          | cons b t1 => exact ⟨a, b, t1, rfl⟩
      have ha : isDigitCh a = true :=
        hc0all a (hc0 ▸ List.mem_cons_self ..)
      have hb : isDigitCh b = true :=
        hc0all b (hc0 ▸ List.mem_cons_of_mem _ (List.mem_cons_self ..))
      refine ⟨?_, ?_, ?_⟩
      · rw [mkTimeInfo_hour]
        exact Int.ofNat_nonneg _
      · rw [mkTimeInfo_hour, hc0]
        show (digitsVal [a, b] : Int) ≤ 99
        rw [digitsVal_pair]
        have h9a := digitVal_le_nine ha
        have h9b := digitVal_le_nine hb
        omega
      · rw [mkTimeInfo_minute]
        exact Int.ofNat_nonneg _

/-- Witness for the amended C5 at `"999"`. -/
theorem parse_time_range_amended_witness :
    0 ≤ (mkTimeInfo 9 99).hour ∧ (mkTimeInfo 9 99).hour ≤ 99
      ∧ 0 ≤ (mkTimeInfo 9 99).minute :=
  parse_time_range_amended "999" (mkTimeInfo 9 99) (by decide) (by decide)
    (by decide)

/-- Counterexample to claim C3 as stated: the colon-free numeric string
`"00815"` is normalised through `str(int(float(...)))` before the
length rule applies, so the code returns 08:15, while the fixed-width
rule applied to the five-character input itself would give hour
`int("00") = 0` and minute `int("815") = 815`. -/
theorem parse_time_fixed_width_counterexample :
    parse_time (some "00815")
        = some { hour := 8, minute := 15, is_next_day := false,
                 display := "08:15" }
      ∧ specFixedWidth "00815".data = (0, 815)
      ∧ (8 : Int) ≠ 0 := by
  decide

/-- Claim C3, amended.  For colon-free digit strings the fixed-width
right-aligned rule applies to the canonical numeral obtained by the
`str(int(float(...)))` round-trip, which strips leading zeros — so the
rule holds as stated exactly for inputs without superfluous leading
zeros (the length bound keeps the modelled float round-trip exact);
`is_next_day` is `hour < 6` on every non-null result; and the four
example inputs parse as the claim lists them. -/
theorem parse_time_fixed_width_amended :
    (∀ s : String, s.data ≠ [] → s.data.all isDigitCh = true →
        (s.data.head? ≠ some '0' ∨ s.data = ['0']) → s.data.length ≤ 15 →
        parse_time (some s)
          = some (mkTimeInfo (specFixedWidth s.data).1
              (specFixedWidth s.data).2))
      ∧ (∀ (raw : Option String) (t : TimeInfo), parse_time raw = some t →
          t.is_next_day = decide (t.hour < 6))
      ∧ parse_time (some "5")
          = some { hour := 0, minute := 5, is_next_day := true,
                   display := "00:05次日" }
      ∧ parse_time (some "815")
          = some { hour := 8, minute := 15, is_next_day := false,
                   display := "08:15" }
      ∧ parse_time (some "2250")
          = some { hour := 22, minute := 50, is_next_day := false,
                   display := "22:50" }
      ∧ parse_time (some "03:30")
          = some { hour := 3, minute := 30, is_next_day := true,
                   display := "03:30次日" } := by
  refine ⟨?_, ?_, by decide, by decide, by decide, by decide⟩
  · intro s hne hd hlz hlen
    rw [parse_time_digits s hne hd, canonDigits_eq_self hlz hne]
    unfold specFixedWidth
    by_cases h1 : s.data.length ≤ 2
    · rw [if_pos h1, if_pos h1]
      rfl
    · rw [if_neg h1, if_neg h1]
      by_cases h2 : s.data.length = 3
      · rw [if_pos h2, if_pos h2]
        rfl
      · rw [if_neg h2, if_neg h2]
        rfl
  · intro raw t hp
    rcases parse_time_shape raw with hnone | ⟨h, m, hsome⟩
    · rw [hnone] at hp
      cases hp
    · rw [hsome] at hp
      obtain rfl := (Option.some_inj.mp hp).symm
      rw [mkTimeInfo_is_next_day, mkTimeInfo_hour]

/-- Witness for the amended C3 at `"2250"` and `"03:30"`. -/
theorem parse_time_fixed_width_amended_witness :
    parse_time (some "2250")
        = some (mkTimeInfo (specFixedWidth "2250".data).1
            (specFixedWidth "2250".data).2)
      ∧ (mkTimeInfo 3 30).is_next_day = decide ((mkTimeInfo 3 30).hour < 6) :=
  ⟨parse_time_fixed_width_amended.1 "2250" (by decide) (by decide)
      (by decide) (by decide),
   parse_time_fixed_width_amended.2.1 (some "03:30") (mkTimeInfo 3 30)
      (by decide)⟩
